import Mathlib

/-!
Verification of the `walkers` slippy-map library (files `src/tiles.rs` and
`src/map.rs`) against its natural-language specification.

The Rust sources are shallowly embedded: the tile cache `Tiles` becomes a
Lean structure `TilesState` with its channels modelled as bounded lists, the
cache lookup `Tiles::at` becomes a state-passing function returning
`Except Unit _` (the `.error` value models the reachable `todo!()` panic),
one iteration of the `download` worker loop becomes `downloadStep`, and the
recursive `draw_tiles` viewport flood-fill becomes a fuel-indexed function
`drawTilesAux` about which termination (fuel-independence) is proved.
Pixel arithmetic from `egui` (`Rect`, `Pos2`, `Vec2`) is modelled over `ℚ`;
the web-mercator projection from the crate's `mercator` module (whose source
file is not part of the two files under verification) is modelled from the
specification over `ℝ`.
-/

namespace Walkers

/-- Modelled from the spec: `TileId` from the crate's `mercator` module
(integer triple `(x, y, zoom)`), used by both `tiles.rs` and `map.rs`. -/
structure TileId where
  x : ℤ
  y : ℤ
  zoom : ℕ
deriving DecidableEq

/-- Modelled from the spec: tiles are fixed-size rasters of 256 pixels per
side in the standard `{z}/{x}/{y}.png` scheme. -/
def tileSize : ℚ := 256

/-- Modelled from the spec: `TileId::project` returns the pixel coordinate
of the tile's top-left corner, `(x, y) * tileSize`. -/
def TileId.project (t : TileId) : ℚ × ℚ :=
  (tileSize * (t.x : ℚ), tileSize * (t.y : ℚ))

/-- Modelled from the spec: the north neighbor shifts `y` by `-1`
(latitude direction carries no wraparound guard). -/
def TileId.north (t : TileId) : TileId :=
  { t with y := t.y - 1 }

/-- Modelled from the spec: the south neighbor shifts `y` by `+1`. -/
def TileId.south (t : TileId) : TileId :=
  { t with y := t.y + 1 }

/-- Modelled from the spec: the east neighbor shifts `x` by `+1`;
longitude wraps modulo `2 ^ zoom`. -/
def TileId.east (t : TileId) : TileId :=
  { t with x := (t.x + 1) % (2 ^ t.zoom : ℤ) }

/-- Modelled from the spec: the west neighbor shifts `x` by `-1`;
longitude wraps modulo `2 ^ zoom`. -/
def TileId.west (t : TileId) : TileId :=
  { t with x := (t.x - 1) % (2 ^ t.zoom : ℤ) }

/-- A decoded tile: the raster payload reduced to what the embedded code
observes, its pixel dimensions (`image.width()`, `image.height()`). -/
structure Tile where
  width : ℚ
  height : ℚ
deriving DecidableEq

/-- Axis-aligned rectangle in screen pixels, modelling `egui::Rect`. -/
structure Rect where
  minX : ℚ
  minY : ℚ
  maxX : ℚ
  maxY : ℚ
deriving DecidableEq

/-- Models `egui::Rect::from_two_pos`: componentwise min/max corners. -/
def Rect.fromTwoPos (a b : ℚ × ℚ) : Rect :=
  { minX := min a.1 b.1, minY := min a.2 b.2
    maxX := max a.1 b.1, maxY := max a.2 b.2 }

/-- Models `egui::Rect::intersects`: closed-interval overlap on both axes. -/
def Rect.intersects (a b : Rect) : Bool :=
  decide (a.minX ≤ b.maxX ∧ b.minX ≤ a.maxX ∧ a.minY ≤ b.maxY ∧ b.minY ≤ a.maxY)

/-- Models `egui::Rect::center`. -/
def Rect.center (r : Rect) : ℚ × ℚ :=
  ((r.minX + r.maxX) / 2, (r.minY + r.maxY) / 2)

/-- Models `Tile::rect` (tiles.rs lines 24-30): the rectangle spanned from
the screen position to the screen position plus the image dimensions. -/
def Tile.rect (tile : Tile) (screenPosition : ℚ × ℚ) : Rect :=
  Rect.fromTwoPos screenPosition
    (screenPosition.1 + tile.width, screenPosition.2 + tile.height)

/-- Models `egui::Mesh` as far as the embedded code observes it: the
textured quad produced by `Tile::mesh` covers the tile's screen rectangle. -/
structure Mesh where
  rect : Rect
deriving DecidableEq

/-- Models `Tile::mesh` (tiles.rs lines 32-40): one textured rectangle at
the tile's screen rectangle. -/
def Tile.mesh (tile : Tile) (screenPosition : ℚ × ℚ) : Mesh :=
  { rect := tile.rect screenPosition }

/-! ### The tile cache (`Tiles`, tiles.rs lines 43-112) -/

/-- The cache map `HashMap<TileId, Option<Tile>>` as an association list:
no entry = absent, `none` = pending, `some tile` = ready. -/
abbrev Cache := List (TileId × Option Tile)

/-- Lookup of the first (and in reachable states only) entry for a key,
modelling `HashMap` lookup / the `Entry` probe. -/
def cacheFind (c : Cache) (t : TileId) : Option (Option Tile) :=
  match c with
  | [] => none
  | (u, v) :: rest => if u = t then some v else cacheFind rest t

/-- Models `HashMap::insert`: replace the entry if the key is present,
otherwise add a new entry. -/
def cacheInsert (c : Cache) (t : TileId) (v : Option Tile) : Cache :=
  match c with
  | [] => [(t, v)]
  | (u, w) :: rest =>
      if u = t then (t, v) :: rest else (u, w) :: cacheInsert rest t v

/-- State of a `Tiles` value: the cache map plus the two bounded tokio
channels it owns, viewed from the GUI thread. `requestQueue` is the content
of the request channel, `tileQueue` the content of the result channel,
`capacity` the common bound (`channel_size`), and `workerAlive` records
whether the worker still holds the sender of the result channel (when it is
`false` and `tileQueue` is empty, `try_recv` reports `Disconnected`). -/
structure TilesState where
  cache : Cache
  requestQueue : List TileId
  tileQueue : List (TileId × Tile)
  capacity : ℕ
  workerAlive : Bool
deriving DecidableEq

/-- Models tiles.rs lines 88-97: drain at most one downloaded tile from the
result channel into the cache. `TryRecvError::Empty` is ignored;
`TryRecvError::Disconnected` hits `todo!()`, modelled as `.error ()`. -/
def tryRecvStep (s : TilesState) : Except Unit TilesState :=
  match s.tileQueue with
  | (tid, tile) :: rest =>
      .ok { s with cache := cacheInsert s.cache tid (some tile), tileQueue := rest }
  | [] => if s.workerAlive then .ok s else .error ()

/-- Models tiles.rs lines 99-110: probe the cache entry for the id; an
occupied entry is returned as is, a vacant entry triggers a non-blocking
`try_send` of a request (which succeeds exactly when the bounded request
channel has room) and, on success, is marked pending; the call returns
`none` in every vacant case. -/
def cacheStep (s : TilesState) (tid : TileId) : Option Tile × TilesState :=
  match cacheFind s.cache tid with
  | some v => (v, s)
  | none =>
      if s.requestQueue.length < s.capacity then
        (none,
          { s with
            requestQueue := s.requestQueue ++ [tid]
            cache := cacheInsert s.cache tid none })
      else (none, s)

/-- Models `Tiles::at` (tiles.rs lines 87-111); named `at'` because `at` is
reserved in Lean. The `.error` value is the reachable `todo!()` panic. -/
def Tiles.at' (s : TilesState) (tid : TileId) : Except Unit (Option Tile × TilesState) :=
  match tryRecvStep s with
  | .error e => .error e
  | .ok s1 => .ok (cacheStep s1 tid)

/-- Models `Tiles::new` (tiles.rs line 72): the bounded channel capacity. -/
def channelSize : ℕ := 20

/-- Models the `Tiles` value produced by `Tiles::new` (tiles.rs lines
65-85): empty cache, empty channels, worker just spawned. -/
def tilesInit (cap : ℕ) : TilesState :=
  { cache := [], requestQueue := [], tileQueue := [], capacity := cap, workerAlive := true }

/-! ### The download worker (tiles.rs lines 114-148) -/

/-- Outcome of the HTTP GET performed by the worker for one request:
either the request itself errors (`send().await` returns `Err`), or a
response with a status code and body bytes arrives. -/
inductive FetchOutcome where
  | netErr
  | resp (status : ℕ) (body : List ℕ)

/-- The panics reachable in the worker: the `.unwrap()` on the send future
(tiles.rs line 134) and the `.unwrap()` inside `Tile::new` on image
decoding (tiles.rs line 20). -/
inductive WorkerPanic where
  | sendUnwrap
  | decodeUnwrap
deriving DecidableEq

/-- Models `reqwest::StatusCode::is_success`: 2xx. -/
def isSuccessStatus (status : ℕ) : Bool :=
  decide (200 ≤ status ∧ status < 300)

/-- Models `Tile::new` (tiles.rs lines 17-22): decode the body bytes with
the (external) image decoder and `.unwrap()` the result, so a body that
fails to decode panics. The decoder itself is an external collaborator and
is passed in as a function. -/
def Tile.new (decode : List ℕ → Option Tile) (bytes : List ℕ) : Except WorkerPanic Tile :=
  match decode bytes with
  | some tile => .ok tile
  | none => .error .decodeUnwrap

/-- Result of one iteration of the worker loop: what was pushed on the
result channel, and whether the loop continues (`break` on a dead GUI
thread makes it stop). -/
structure WorkerResult where
  sent : Option (TileId × Tile)
  continueLoop : Bool
deriving DecidableEq

/-- Models one iteration of the `download` loop body (tiles.rs lines
124-146) for a received request, given the outcome of the GET and whether
the GUI thread still holds the result channel's receiver. A network error
hits the `.unwrap()` on the send future; a 2xx response is decoded by
`Tile::new` (whose `.unwrap()` panics on a malformed body) and pushed; a
non-2xx response is dropped silently and the loop continues. -/
def downloadStep (decode : List ℕ → Option Tile) (requested : TileId)
    (outcome : FetchOutcome) (consumerAlive : Bool) : Except WorkerPanic WorkerResult :=
  match outcome with
  | .netErr => .error .sendUnwrap
  | .resp status body =>
      if isSuccessStatus status then
        match Tile.new decode body with
        | .error e => .error e
        | .ok tile =>
            if consumerAlive then .ok { sent := some (requested, tile), continueLoop := true }
            else .ok { sent := none, continueLoop := false }
      else .ok { sent := none, continueLoop := true }

/-! ### Map center mode and dragging (`map.rs` lines 62-90) -/

/-- Geographic position (degrees), from the crate's `mercator` module. -/
structure Position where
  lat : ℝ
  lon : ℝ

/-- Modelled from the spec: web-mercator latitude term, the log-tan
formula `ln (tan (π/4 + φ/2))` with `φ = lat · π / 180` in radians. -/
noncomputable def mercatorLatToY (lat : ℝ) : ℝ :=
  Real.log (Real.tan (Real.pi / 4 + lat * Real.pi / 360))

/-- Modelled from the spec: `Position::project` maps a geographic position
to pixel space at a zoom level; scale is `tileSize * 2 ^ zoom`, longitude
maps linearly, latitude via the mercator log-tan formula. -/
noncomputable def Position.project (p : Position) (zoom : ℕ) : ℝ × ℝ :=
  ((p.lon + 180) / 360 * (256 * 2 ^ zoom),
   (1 - mercatorLatToY p.lat / Real.pi) / 2 * (256 * 2 ^ zoom))

/-- Modelled from the spec: `screen_to_position` is the inverse projection
from pixel space back to a geographic position. -/
noncomputable def screen_to_position (v : ℝ × ℝ) (zoom : ℕ) : Position :=
  { lon := v.1 / (256 * 2 ^ zoom) * 360 - 180
    lat := (2 * Real.arctan (Real.exp ((1 - 2 * v.2 / (256 * 2 ^ zoom)) * Real.pi))
            - Real.pi / 2) * 180 / Real.pi }

/-- Models `MapCenterMode` (map.rs lines 62-66). -/
inductive MapCenterMode where
  | MyPosition
  | Exact (position : Position)

/-- Models `MapCenterMode::screen_drag` (map.rs lines 69-82): when the
response is a primary drag, a following mode detaches at the live position
and a detached mode shifts its anchored position by
project-subtract-unproject of the drag delta; otherwise nothing changes. -/
noncomputable def MapCenterMode.screen_drag (m : MapCenterMode)
    (draggedByPrimary : Bool) (dragDelta : ℝ × ℝ)
    (myPosition : Position) (zoom : ℕ) : MapCenterMode :=
  if draggedByPrimary then
    match m with
    | .MyPosition => .Exact myPosition
    | .Exact position =>
        .Exact (screen_to_position (position.project zoom - dragDelta) zoom)
  else m

/-- Models `MapCenterMode::position` (map.rs lines 84-89). -/
def MapCenterMode.position (m : MapCenterMode) (myPosition : Position) : Position :=
  match m with
  | .MyPosition => myPosition
  | .Exact position => position

/-- A drag event as `screen_drag` observes it: primary-drag flag, drag
delta, live position, zoom. -/
structure DragEvent where
  draggedByPrimary : Bool
  dragDelta : ℝ × ℝ
  myPosition : Position
  zoom : ℕ

/-- A sequence of `screen_drag` calls folded over the center mode, as the
widget performs one per frame (map.rs lines 35-37). -/
noncomputable def dragSequence (m : MapCenterMode) (events : List DragEvent) : MapCenterMode :=
  events.foldl
    (fun acc e => acc.screen_drag e.draggedByPrimary e.dragDelta e.myPosition e.zoom) m

/-! ### The viewport tile enumerator (`draw_tiles`, map.rs lines 107-149) -/

/-- The `meshes` accumulator `HashMap<TileId, Mesh>` as an association
list; entries are only ever added through the vacant-entry check, so keys
stay duplicate-free. -/
abbrev Meshes := List (TileId × Mesh)

/-- Lookup in the meshes accumulator, modelling the `Entry` probe of
map.rs line 129. -/
def meshesFind (m : Meshes) (t : TileId) : Option Mesh :=
  match m with
  | [] => none
  | (u, v) :: rest => if u = t then some v else meshesFind rest t

/-- Models map.rs lines 115-117: the tile's screen position is the clip
rectangle's center plus the projected tile corner minus the projected map
center. -/
def tileScreenPosition (clip : Rect) (mapCenterProjectedPosition : ℚ × ℚ)
    (tileId : TileId) : ℚ × ℚ :=
  clip.center + tileId.project - mapCenterProjectedPosition

/-- Models `draw_tiles` (map.rs lines 107-149), fuel-indexed to express the
recursion: query the cache (`Tiles::at`, whose `todo!()` panic propagates
as `.error`), stop when the tile is not ready, stop when its screen
rectangle misses the clip rectangle, stop when a mesh for it already
exists, otherwise record its mesh and recurse into the four neighbors in
source order (north, east, south, west), threading the cache state and the
accumulator through. Fuel `0` returns the accumulator unchanged; the
fuel-independence theorem below shows enough fuel always exists. -/
def drawTilesAux (clip : Rect) (mapCenterProjectedPosition : ℚ × ℚ) :
    ℕ → TileId → TilesState → Meshes → Except Unit (TilesState × Meshes)
  | 0, _, s, m => .ok (s, m)
  | fuel + 1, tileId, s, m =>
    match Tiles.at' s tileId with
    | .error e => .error e
    | .ok (none, s1) => .ok (s1, m)
    | .ok (some image, s1) =>
      if clip.intersects
          (image.rect (tileScreenPosition clip mapCenterProjectedPosition tileId)) then
        match meshesFind m tileId with
        | some _ => .ok (s1, m)
        | none =>
          match drawTilesAux clip mapCenterProjectedPosition fuel tileId.north s1
            ((tileId, image.mesh (tileScreenPosition clip mapCenterProjectedPosition tileId)) :: m) with
          | .error e => .error e
          | .ok (s2, m2) =>
            match drawTilesAux clip mapCenterProjectedPosition fuel tileId.east s2 m2 with
            | .error e => .error e
            | .ok (s3, m3) =>
              match drawTilesAux clip mapCenterProjectedPosition fuel tileId.south s3 m3 with
              | .error e => .error e
              | .ok (s4, m4) =>
                drawTilesAux clip mapCenterProjectedPosition fuel tileId.west s4 m4
      else .ok (s1, m)

/-- Ids of cache entries that hold a ready tile. -/
def readyIds (c : Cache) : Finset TileId :=
  (c.filterMap (fun p => if p.2.isSome then some p.1 else none)).toFinset

/-- Ids buffered on the result channel. -/
def queueIds (s : TilesState) : Finset TileId :=
  (s.tileQueue.map Prod.fst).toFinset

/-- Ids that can ever become ready without further worker activity: those
already ready plus those buffered on the result channel. -/
def pool (s : TilesState) : Finset TileId :=
  readyIds s.cache ∪ queueIds s

/-- The key set of the meshes accumulator. -/
def meshKeys (m : Meshes) : Finset TileId :=
  (m.map Prod.fst).toFinset

/-- Termination measure for `drawTilesAux`: how many tiles could still be
newly visited (ready or buffered, and not yet holding a mesh). -/
def mu (s : TilesState) (m : Meshes) : ℕ :=
  (pool s \ meshKeys m).card

/-- The ready tile stored for an id, if any (pending and absent both give
`none`). -/
def readyLookup (s : TilesState) (t : TileId) : Option Tile :=
  match cacheFind s.cache t with
  | some (some tile) => some tile
  | _ => none

/-- The four neighbors in the order `draw_tiles` visits them. -/
def neighborsList (t : TileId) : List TileId :=
  [t.north, t.east, t.south, t.west]

/-- A tile the flood fill can flow through: it has a ready image in the
cache and the image's screen rectangle intersects the clip rectangle (a
tile without a ready image has no known dimensions, hence no rectangle,
and prunes the fill). -/
def goodTile (clip : Rect) (mapCenterProjectedPosition : ℚ × ℚ)
    (s : TilesState) (t : TileId) : Bool :=
  match readyLookup s t with
  | some tile =>
      clip.intersects (tile.rect (tileScreenPosition clip mapCenterProjectedPosition t))
  | none => false

/-- Spec-words definition for the enumerator's output (spec §4.4 / P6):
the tiles reachable from the start tile through chains of 4-connected
neighbors that the fill can flow through. -/
inductive ReachVia (gd : TileId → Bool) : TileId → TileId → Prop where
  | base (t : TileId) : gd t = true → ReachVia gd t t
  | step (t u n : TileId) : ReachVia gd t u → n ∈ neighborsList u →
      gd n = true → ReachVia gd t n

/-! ### Whole-system traces: the GUI thread plus the download worker -/

/-- Whole-system state: the `Tiles` value owned by the GUI thread, the
request the worker is currently fetching (taken off the request channel),
and a ghost counter of how many requests were ever placed on the request
channel for each id. -/
structure Sys where
  tiles : TilesState
  inflight : Option TileId
  enqueued : TileId → ℕ

/-- The system right after `Tiles::new`: empty cache and channels, no fetch
in flight, nothing ever requested. -/
def sysInit (cap : ℕ) : Sys :=
  { tiles := tilesInit cap, inflight := none, enqueued := fun _ => 0 }

/-- Ghost bookkeeping for an `at` call: the call enqueued a request for the
queried id exactly when the request queue grew. -/
def bumpEnqueued (σ : Sys) (tid : TileId) (t' : TilesState) : TileId → ℕ :=
  fun u =>
    σ.enqueued u +
      (if u = tid ∧ t'.requestQueue.length = σ.tiles.requestQueue.length + 1
       then 1 else 0)

/-- Interleaving semantics of the system: the GUI thread may call
`Tiles::at` on any id (tiles.rs lines 87-111), and the worker loop
(tiles.rs lines 114-148) may take the next request off the request channel,
finish it successfully by pushing the decoded tile on the result channel
(tiles.rs line 140, only when that bounded channel has room), or finish it
with a non-2xx failure, dropping it silently (tiles.rs lines 138-145). -/
inductive Step : Sys → Sys → Prop where
  | atCall (σ : Sys) (tid : TileId) (r : Option Tile) (t' : TilesState) :
      Tiles.at' σ.tiles tid = .ok (r, t') →
      Step σ { tiles := t', inflight := σ.inflight, enqueued := bumpEnqueued σ tid t' }
  | workerTake (σ : Sys) (tid : TileId) (rest : List TileId) :
      σ.tiles.requestQueue = tid :: rest → σ.inflight = none →
      Step σ { σ with tiles := { σ.tiles with requestQueue := rest },
                      inflight := some tid }
  | workerSuccess (σ : Sys) (tid : TileId) (tile : Tile) :
      σ.inflight = some tid → σ.tiles.tileQueue.length < σ.tiles.capacity →
      Step σ { σ with
               tiles := { σ.tiles with
                          tileQueue := σ.tiles.tileQueue ++ [(tid, tile)] },
               inflight := none }
  | workerFail (σ : Sys) (tid : TileId) :
      σ.inflight = some tid →
      Step σ { σ with inflight := none }

/-- States reachable from a fresh `Tiles::new` system. -/
def Reach (cap : ℕ) (σ : Sys) : Prop :=
  Relation.ReflTransGen Step (sysInit cap) σ

/-- Steps available when the tile source always fails with a non-2xx
status: the same as `Step` but the worker can never push a result. -/
inductive FailStep : Sys → Sys → Prop where
  | atCall (σ : Sys) (tid : TileId) (r : Option Tile) (t' : TilesState) :
      Tiles.at' σ.tiles tid = .ok (r, t') →
      FailStep σ { tiles := t', inflight := σ.inflight, enqueued := bumpEnqueued σ tid t' }
  | workerTake (σ : Sys) (tid : TileId) (rest : List TileId) :
      σ.tiles.requestQueue = tid :: rest → σ.inflight = none →
      FailStep σ { σ with tiles := { σ.tiles with requestQueue := rest },
                          inflight := some tid }
  | workerFail (σ : Sys) (tid : TileId) :
      σ.inflight = some tid →
      FailStep σ { σ with inflight := none }

/-- States reachable from a fresh system when the source always fails. -/
def FailReach (cap : ℕ) (σ : Sys) : Prop :=
  Relation.ReflTransGen FailStep (sysInit cap) σ

/-- Number of outstanding (placed but not completed) requests for an id:
its occurrences on the request channel plus the in-flight fetch. -/
def outstanding (σ : Sys) (tid : TileId) : ℕ :=
  σ.tiles.requestQueue.count tid + (if σ.inflight = some tid then 1 else 0)

/-- The invariant behind claim C1: each id has at most one outstanding
request, and an id with an outstanding request has a cache entry. -/
def InvC1 (σ : Sys) : Prop :=
  ∀ tid : TileId, outstanding σ tid ≤ 1 ∧
    (1 ≤ outstanding σ tid → (cacheFind σ.tiles.cache tid).isSome = true)

/-- The invariant behind claim C3: with an always-failing source the result
channel stays empty, every cache entry stays pending (never ready), at most
one request is ever placed per id, and a request has been placed for an id
exactly when its cache entry exists. -/
def InvC3 (σ : Sys) : Prop :=
  σ.tiles.workerAlive = true ∧ σ.tiles.tileQueue = [] ∧
  ∀ tid : TileId,
    (cacheFind σ.tiles.cache tid = none ∨ cacheFind σ.tiles.cache tid = some none) ∧
    σ.enqueued tid ≤ 1 ∧
    ((cacheFind σ.tiles.cache tid).isSome = true ↔ σ.enqueued tid = 1)

/-! ### Basic lemmas about the cache map -/

lemma cacheFind_insert_self (c : Cache) (t : TileId) (v : Option Tile) :
    cacheFind (cacheInsert c t v) t = some v := by
  induction c with
  | nil => simp [cacheInsert, cacheFind]
  | cons head rest ih =>
      obtain ⟨a, b⟩ := head
      by_cases h : a = t
      · simp [cacheInsert, h, cacheFind]
      · simp [cacheInsert, h, cacheFind, ih]

lemma cacheFind_insert_ne (c : Cache) (t u : TileId) (v : Option Tile)
    (h : u ≠ t) : cacheFind (cacheInsert c t v) u = cacheFind c u := by
  induction c with
  | nil => simp [cacheInsert, cacheFind, Ne.symm h]
  | cons head rest ih =>
      obtain ⟨a, b⟩ := head
      by_cases hat : a = t
      · subst hat
        simp [cacheInsert, cacheFind, Ne.symm h]
      · simp [cacheInsert, hat, cacheFind, ih]

lemma isSome_cacheFind_insert (c : Cache) (t : TileId) (v : Option Tile)
    (u : TileId) (h : (cacheFind c u).isSome = true) :
    (cacheFind (cacheInsert c t v) u).isSome = true := by
  by_cases hu : u = t
  · subst hu
    rw [cacheFind_insert_self]
    rfl
  · rw [cacheFind_insert_ne c t u v hu]
    exact h

/-! ### Characterization of one `Tiles::at` call -/

lemma tryRecvStep_ok (s s1 : TilesState) (h : tryRecvStep s = .ok s1) :
    s1.workerAlive = s.workerAlive ∧ s1.capacity = s.capacity ∧
    s1.requestQueue = s.requestQueue ∧
    (∀ u, (cacheFind s.cache u).isSome = true →
      (cacheFind s1.cache u).isSome = true) := by
  rcases hq : s.tileQueue with _ | ⟨⟨tid, tile⟩, rest⟩
  · unfold tryRecvStep at h
    rw [hq] at h
    rcases ha : s.workerAlive with _ | _ <;> rw [ha] at h <;> simp at h
    subst h
    exact ⟨ha, rfl, rfl, fun u hu => hu⟩
  · unfold tryRecvStep at h
    rw [hq] at h
    simp at h
    subst h
    exact ⟨rfl, rfl, rfl, fun u hu => isSome_cacheFind_insert _ _ _ _ hu⟩

/-- What a successful `Tiles::at` call can do: the worker-liveness flag and
capacity are untouched, cache entries are never removed, and the request
queue is either unchanged or extended by exactly the queried id — the
latter only when that id was absent, leaving it pending. -/
lemma at'_ok_cases (s : TilesState) (tid : TileId) (r : Option Tile)
    (s' : TilesState) (h : Tiles.at' s tid = .ok (r, s')) :
    s'.workerAlive = s.workerAlive ∧ s'.capacity = s.capacity ∧
    (∀ u, (cacheFind s.cache u).isSome = true →
      (cacheFind s'.cache u).isSome = true) ∧
    (s'.requestQueue = s.requestQueue ∨
      (s'.requestQueue = s.requestQueue ++ [tid] ∧
        cacheFind s.cache tid = none ∧ cacheFind s'.cache tid = some none)) := by
  unfold Tiles.at' at h
  rcases htr : tryRecvStep s with e | s1 <;> rw [htr] at h
  · simp at h
  · simp at h
    obtain ⟨halive, hcap, hqueue, hmono⟩ := tryRecvStep_ok s s1 htr
    unfold cacheStep at h
    rcases hfind : cacheFind s1.cache tid with _ | v <;> rw [hfind] at h
    · by_cases hroom : s1.requestQueue.length < s1.capacity
      · rw [if_pos hroom] at h
        obtain ⟨hr, hs'⟩ := Prod.mk.injEq .. ▸ h
        subst hs'
        refine ⟨halive, hcap, fun u hu => isSome_cacheFind_insert _ _ _ _ (hmono u hu), ?_⟩
        right
        refine ⟨by rw [hqueue], ?_, by simp [cacheFind_insert_self]⟩
        rcases hfs : cacheFind s.cache tid with _ | w
        · rfl
        · have := hmono tid (by simp [hfs])
          rw [hfind] at this
          simp at this
      · rw [if_neg hroom] at h
        obtain ⟨hr, hs'⟩ := Prod.mk.injEq .. ▸ h
        subst hs'
        exact ⟨halive, hcap, hmono, Or.inl hqueue⟩
    · obtain ⟨hr, hs'⟩ := Prod.mk.injEq .. ▸ h
      subst hs'
      exact ⟨halive, hcap, hmono, Or.inl hqueue⟩

/-- When the result channel is empty and the worker is alive, `Tiles::at`
reduces to the pure cache step. -/
lemma at'_queueEmpty (s : TilesState) (tid : TileId)
    (ha : s.workerAlive = true) (hq : s.tileQueue = []) :
    Tiles.at' s tid = .ok (cacheStep s tid) := by
  simp [Tiles.at', tryRecvStep, hq, ha]

/-! ### Lemmas about ready entries, the pool, and the meshes accumulator -/

lemma mem_readyIds (c : Cache) (t : TileId) :
    t ∈ readyIds c ↔ ∃ tile : Tile, (t, some tile) ∈ c := by
  unfold readyIds
  rw [List.mem_toFinset, List.mem_filterMap]
  constructor
  · rintro ⟨⟨u, v⟩, hmem, hf⟩
    rcases v with _ | tile
    · simp at hf
    · simp at hf
      subst hf
      exact ⟨tile, hmem⟩
  · rintro ⟨tile, hmem⟩
    exact ⟨(t, some tile), hmem, by simp⟩

lemma mem_cacheInsert (c : Cache) (t : TileId) (v : Option Tile)
    (p : TileId × Option Tile) (h : p ∈ cacheInsert c t v) : p ∈ c ∨ p = (t, v) := by
  induction c with
  | nil =>
      simp [cacheInsert] at h
      exact Or.inr h
  | cons head rest ih =>
      obtain ⟨a, b⟩ := head
      by_cases hat : a = t
      · simp only [cacheInsert, if_pos hat] at h
        rcases List.mem_cons.mp h with h1 | h1
        · exact Or.inr h1
        · exact Or.inl (List.mem_cons_of_mem _ h1)
      · simp only [cacheInsert, if_neg hat] at h
        rcases List.mem_cons.mp h with h1 | h1
        · exact Or.inl (h1 ▸ List.mem_cons_self _ _)
        · rcases ih h1 with h2 | h2
          · exact Or.inl (List.mem_cons_of_mem _ h2)
          · exact Or.inr h2

lemma readyIds_insert_subset (c : Cache) (t : TileId) (v : Option Tile) :
    readyIds (cacheInsert c t v) ⊆ readyIds c ∪ {t} := by
  intro u hu
  rw [mem_readyIds] at hu
  obtain ⟨tile, hmem⟩ := hu
  rcases mem_cacheInsert c t v _ hmem with h | h
  · exact Finset.mem_union_left _ ((mem_readyIds c u).mpr ⟨tile, h⟩)
  · have hu : u = t := congrArg Prod.fst h
    subst hu
    exact Finset.mem_union_right _ (Finset.mem_singleton_self u)

lemma readyIds_insert_none (c : Cache) (t : TileId) :
    readyIds (cacheInsert c t none) ⊆ readyIds c := by
  intro u hu
  rw [mem_readyIds] at hu
  obtain ⟨tile, hmem⟩ := hu
  rcases mem_cacheInsert c t none _ hmem with h | h
  · exact (mem_readyIds c u).mpr ⟨tile, h⟩
  · exact absurd (congrArg Prod.snd h) (by simp)

lemma cacheFind_ready_mem (c : Cache) (t : TileId) (tile : Tile)
    (h : cacheFind c t = some (some tile)) : t ∈ readyIds c := by
  rw [mem_readyIds]
  induction c with
  | nil => simp [cacheFind] at h
  | cons head rest ih =>
      obtain ⟨a, b⟩ := head
      by_cases hat : a = t
      · subst hat
        simp only [cacheFind, if_pos rfl] at h
        injection h with hb
        exact ⟨tile, by rw [← hb]; exact List.mem_cons_self _ _⟩
      · simp only [cacheFind, if_neg hat] at h
        obtain ⟨t0, h0⟩ := ih h
        exact ⟨t0, List.mem_cons_of_mem _ h0⟩

lemma readyLookup_eq_some (s : TilesState) (t : TileId) (tile : Tile) :
    readyLookup s t = some tile ↔ cacheFind s.cache t = some (some tile) := by
  unfold readyLookup
  rcases h : cacheFind s.cache t with _ | v
  · simp
  · rcases v with _ | tl <;> simp

lemma readyLookup_eq_none_of (s : TilesState) (u : TileId)
    (h : cacheFind s.cache u = none ∨ cacheFind s.cache u = some none) :
    readyLookup s u = none := by
  unfold readyLookup
  rcases h with h | h <;> rw [h]

lemma readyLookup_of_cache_eq (s' s : TilesState) (h : s'.cache = s.cache) :
    ∀ u, readyLookup s' u = readyLookup s u := by
  intro u
  unfold readyLookup
  rw [h]

lemma readyLookup_of_insert_none (s' s : TilesState) (tid : TileId)
    (h : s'.cache = cacheInsert s.cache tid none)
    (hnone : cacheFind s.cache tid = none) :
    ∀ u, readyLookup s' u = readyLookup s u := by
  intro u
  by_cases hu : u = tid
  · subst hu
    unfold readyLookup
    rw [h, cacheFind_insert_self, hnone]
  · unfold readyLookup
    rw [h, cacheFind_insert_ne _ _ _ _ hu]

lemma pool_of_fields (s' s : TilesState) (htq : s'.tileQueue = s.tileQueue)
    (hc : s'.cache = s.cache ∨ ∃ tid, s'.cache = cacheInsert s.cache tid none) :
    pool s' ⊆ pool s := by
  unfold pool queueIds
  rw [htq]
  rcases hc with h | ⟨tid, h⟩
  · rw [h]
  · rw [h]
    exact Finset.union_subset_union (readyIds_insert_none _ _) (subset_refl _)

lemma cacheStep_fst (s : TilesState) (tid : TileId) :
    (cacheStep s tid).1 = readyLookup s tid := by
  unfold cacheStep readyLookup
  rcases h : cacheFind s.cache tid with _ | v
  · simp only [h]
    split <;> rfl
  · rcases v with _ | tile <;> simp [h]

lemma cacheStep_fields (s : TilesState) (tid : TileId) :
    (cacheStep s tid).2.tileQueue = s.tileQueue ∧
    (cacheStep s tid).2.workerAlive = s.workerAlive ∧
    (cacheStep s tid).2.capacity = s.capacity ∧
    ((cacheStep s tid).2.cache = s.cache ∨
      ((cacheStep s tid).2.cache = cacheInsert s.cache tid none ∧
        cacheFind s.cache tid = none)) := by
  unfold cacheStep
  rcases h : cacheFind s.cache tid with _ | v
  · by_cases hroom : s.requestQueue.length < s.capacity
    · simp [h, hroom]
    · simp [h, hroom]
  · simp [h]

lemma cacheStep_state (s : TilesState) (tid : TileId) :
    (cacheStep s tid).2.tileQueue = s.tileQueue ∧
    (cacheStep s tid).2.workerAlive = s.workerAlive ∧
    pool (cacheStep s tid).2 ⊆ pool s ∧
    (∀ u, readyLookup (cacheStep s tid).2 u = readyLookup s u) := by
  obtain ⟨h1, h2, _, h4⟩ := cacheStep_fields s tid
  refine ⟨h1, h2, pool_of_fields _ _ h1 ?_, ?_⟩
  · rcases h4 with h | ⟨h, _⟩
    · exact Or.inl h
    · exact Or.inr ⟨tid, h⟩
  · rcases h4 with h | ⟨h, hn⟩
    · exact readyLookup_of_cache_eq _ _ h
    · exact readyLookup_of_insert_none _ _ tid h hn

lemma tryRecvStep_pool (s s1 : TilesState) (h : tryRecvStep s = .ok s1) :
    pool s1 ⊆ pool s := by
  rcases hq : s.tileQueue with _ | ⟨⟨a, tl⟩, rest⟩
  · unfold tryRecvStep at h
    rw [hq] at h
    rcases ha : s.workerAlive with _ | _ <;> rw [ha] at h <;> simp at h
    subst h
    exact subset_refl _
  · unfold tryRecvStep at h
    rw [hq] at h
    simp at h
    subst h
    intro u hu
    rcases Finset.mem_union.mp hu with h1 | h1
    · rcases Finset.mem_union.mp (readyIds_insert_subset s.cache a (some tl) h1)
        with h2 | h2
      · exact Finset.mem_union_left _ h2
      · rw [Finset.mem_singleton] at h2
        subst h2
        refine Finset.mem_union_right _ ?_
        unfold queueIds
        rw [List.mem_toFinset, hq]
        exact List.mem_map_of_mem _ (List.mem_cons_self _ _)
    · refine Finset.mem_union_right _ ?_
      unfold queueIds at h1 ⊢
      rw [List.mem_toFinset] at h1 ⊢
      rw [hq]
      rcases List.mem_map.mp h1 with ⟨p, hp, hf⟩
      exact List.mem_map.mpr ⟨p, List.mem_cons_of_mem _ hp, hf⟩

lemma at'_pool (s : TilesState) (tid : TileId) (r : Option Tile)
    (s' : TilesState) (h : Tiles.at' s tid = .ok (r, s')) : pool s' ⊆ pool s := by
  unfold Tiles.at' at h
  rcases htr : tryRecvStep s with e | s1 <;> rw [htr] at h
  · simp at h
  · simp at h
    have hp : pool (cacheStep s1 tid).2 ⊆ pool s1 := (cacheStep_state s1 tid).2.2.1
    rw [h] at hp
    exact hp.trans (tryRecvStep_pool s s1 htr)

lemma at'_some_ready (s : TilesState) (tid : TileId) (tile : Tile)
    (s' : TilesState) (h : Tiles.at' s tid = .ok (some tile, s')) :
    tid ∈ readyIds s'.cache := by
  unfold Tiles.at' at h
  rcases htr : tryRecvStep s with e | s1 <;> rw [htr] at h
  · simp at h
  · simp at h
    have h1 : (cacheStep s1 tid).1 = readyLookup s1 tid := cacheStep_fst s1 tid
    have h2 : ∀ u, readyLookup (cacheStep s1 tid).2 u = readyLookup s1 u :=
      (cacheStep_state s1 tid).2.2.2
    rw [h] at h1 h2
    have h3 : readyLookup s' tid = some tile := (h2 tid).trans h1.symm
    exact cacheFind_ready_mem _ _ _ ((readyLookup_eq_some s' tid tile).mp h3)

lemma mem_meshKeys (m : Meshes) (t : TileId) :
    t ∈ meshKeys m ↔ ∃ mesh : Mesh, (t, mesh) ∈ m := by
  unfold meshKeys
  rw [List.mem_toFinset, List.mem_map]
  constructor
  · rintro ⟨⟨a, b⟩, hmem, hf⟩
    exact ⟨b, by rwa [show a = t from hf] at hmem⟩
  · rintro ⟨mesh, hmem⟩
    exact ⟨(t, mesh), hmem, rfl⟩

lemma meshesFind_eq_none (m : Meshes) (t : TileId) :
    meshesFind m t = none ↔ ∀ mesh : Mesh, (t, mesh) ∉ m := by
  induction m with
  | nil => simp [meshesFind]
  | cons head rest ih =>
      obtain ⟨a, b⟩ := head
      by_cases hat : a = t
      · subst hat
        constructor
        · intro h
          simp [meshesFind] at h
        · intro h
          exact absurd (List.mem_cons_self (a, b) rest) (h b)
      · simp only [meshesFind, if_neg hat]
        rw [ih]
        constructor
        · intro h mesh hmem
          rcases List.mem_cons.mp hmem with h1 | h1
          · exact hat (congrArg Prod.fst h1).symm
          · exact h mesh h1
        · intro h mesh hmem
          exact h mesh (List.mem_cons_of_mem _ hmem)

lemma meshesFind_none_not_mem (m : Meshes) (t : TileId)
    (h : meshesFind m t = none) : t ∉ meshKeys m := by
  rw [mem_meshKeys]
  rintro ⟨mesh, hmem⟩
  exact (meshesFind_eq_none m t).mp h mesh hmem

lemma meshesFind_some_mem (m : Meshes) (t : TileId) (mesh : Mesh)
    (h : meshesFind m t = some mesh) : t ∈ meshKeys m := by
  rw [mem_meshKeys]
  have hne : ¬ meshesFind m t = none := by rw [h]; simp
  rw [meshesFind_eq_none] at hne
  push_neg at hne
  exact hne

lemma meshKeys_cons (t : TileId) (mesh : Mesh) (m : Meshes) :
    meshKeys ((t, mesh) :: m) = insert t (meshKeys m) := by
  simp [meshKeys]

lemma mu_mono (s' s : TilesState) (m' m : Meshes)
    (hp : pool s' ⊆ pool s) (hk : meshKeys m ⊆ meshKeys m') :
    mu s' m' ≤ mu s m := by
  unfold mu
  apply Finset.card_le_card
  intro u hu
  rw [Finset.mem_sdiff] at hu ⊢
  exact ⟨hp hu.1, fun hmem => hu.2 (hk hmem)⟩

lemma mu_insert_lt (s1 s : TilesState) (m : Meshes) (t : TileId) (mesh : Mesh)
    (hp : pool s1 ⊆ pool s) (hready : t ∈ readyIds s1.cache)
    (hnew : t ∉ meshKeys m) :
    mu s1 ((t, mesh) :: m) < mu s m := by
  have htpool : t ∈ pool s1 := Finset.mem_union_left _ hready
  have hsub : pool s1 \ meshKeys ((t, mesh) :: m) ⊆ pool s \ meshKeys m := by
    intro u hu
    rw [Finset.mem_sdiff] at hu ⊢
    rw [meshKeys_cons] at hu
    exact ⟨hp hu.1, fun hmem => hu.2 (Finset.mem_insert_of_mem hmem)⟩
  unfold mu
  apply Finset.card_lt_card
  rw [Finset.ssubset_iff_of_subset hsub]
  refine ⟨t, Finset.mem_sdiff.mpr ⟨hp htpool, hnew⟩, fun hc => ?_⟩
  rw [Finset.mem_sdiff, meshKeys_cons] at hc
  exact hc.2 (Finset.mem_insert_self _ _)

/-! ### Monotonicity and fuel-independence of the flood fill -/

lemma drawTilesAux_mono (clip : Rect) (cp : ℚ × ℚ) :
    ∀ (fuel : ℕ) (t : TileId) (s : TilesState) (m : Meshes)
      (s' : TilesState) (m' : Meshes),
      drawTilesAux clip cp fuel t s m = .ok (s', m') →
      pool s' ⊆ pool s ∧ meshKeys m ⊆ meshKeys m' := by
  intro fuel
  induction fuel with
  | zero =>
      intro t s m s' m' h
      simp only [drawTilesAux] at h
      obtain ⟨hs, hm⟩ := Prod.mk.injEq .. ▸ Except.ok.inj h
      subst hs
      subst hm
      exact ⟨subset_refl _, subset_refl _⟩
  | succ f ih =>
      intro t s m s' m' h
      simp only [drawTilesAux] at h
      rcases hat : Tiles.at' s t with e | ⟨r, s1⟩
      · rw [hat] at h
        simp at h
      · rcases r with _ | image
        · rw [hat] at h
          simp only at h
          obtain ⟨hs, hm⟩ := Prod.mk.injEq .. ▸ Except.ok.inj h
          subst hs
          subst hm
          exact ⟨at'_pool s t none _ hat, subset_refl _⟩
        · rw [hat] at h
          simp only at h
          by_cases hint : clip.intersects
              (image.rect (tileScreenPosition clip cp t)) = true
          · rw [if_pos hint] at h
            rcases hmf : meshesFind m t with _ | mesh
            · rw [hmf] at h
              simp only at h
              rcases h1 : drawTilesAux clip cp f t.north s1
                  ((t, image.mesh (tileScreenPosition clip cp t)) :: m)
                with e | ⟨s2, m2⟩ <;> rw [h1] at h
              · simp at h
              · simp only at h
                rcases h2 : drawTilesAux clip cp f t.east s2 m2
                  with e | ⟨s3, m3⟩ <;> rw [h2] at h
                · simp at h
                · simp only at h
                  rcases h3 : drawTilesAux clip cp f t.south s3 m3
                    with e | ⟨s4, m4⟩ <;> rw [h3] at h
                  · simp at h
                  · simp only at h
                    obtain ⟨hp1, hk1⟩ := ih _ _ _ _ _ h1
                    obtain ⟨hp2, hk2⟩ := ih _ _ _ _ _ h2
                    obtain ⟨hp3, hk3⟩ := ih _ _ _ _ _ h3
                    obtain ⟨hp4, hk4⟩ := ih _ _ _ _ _ h
                    refine ⟨?_, ?_⟩
                    · exact hp4.trans (hp3.trans (hp2.trans
                        (hp1.trans (at'_pool s t (some image) s1 hat))))
                    · refine subset_trans ?_
                        (subset_trans hk1 (subset_trans hk2 (subset_trans hk3 hk4)))
                      rw [meshKeys_cons]
                      exact Finset.subset_insert _ _
            · rw [hmf] at h
              simp only at h
              obtain ⟨hs, hm⟩ := Prod.mk.injEq .. ▸ Except.ok.inj h
              subst hs
              subst hm
              exact ⟨at'_pool s t (some image) _ hat, subset_refl _⟩
          · rw [if_neg hint] at h
            obtain ⟨hs, hm⟩ := Prod.mk.injEq .. ▸ Except.ok.inj h
            subst hs
            subst hm
            exact ⟨at'_pool s t (some image) _ hat, subset_refl _⟩

lemma drawTilesAux_stab (clip : Rect) (cp : ℚ × ℚ) :
    ∀ (fuel : ℕ) (t : TileId) (s : TilesState) (m : Meshes),
      mu s m < fuel →
      drawTilesAux clip cp (fuel + 1) t s m = drawTilesAux clip cp fuel t s m := by
  intro fuel
  induction fuel using Nat.strong_induction_on with
  | _ fuel ih =>
      intro t s m hmu
      rcases fuel with _ | f
      · omega
      rw [drawTilesAux, drawTilesAux]
      rcases hat : Tiles.at' s t with e | ⟨r, s1⟩
      · rfl
      · rcases r with _ | image
        · rfl
        · simp only
          by_cases hint : clip.intersects
              (image.rect (tileScreenPosition clip cp t)) = true
          · rw [if_pos hint, if_pos hint]
            rcases hmf : meshesFind m t with _ | mesh
            · simp only
              have hready : t ∈ readyIds s1.cache := at'_some_ready s t image s1 hat
              have hpool1 : pool s1 ⊆ pool s := at'_pool s t (some image) s1 hat
              have hnew : t ∉ meshKeys m := meshesFind_none_not_mem m t hmf
              have hmu1 : mu s1 ((t, image.mesh (tileScreenPosition clip cp t)) :: m)
                  < mu s m := mu_insert_lt s1 s m t _ hpool1 hready hnew
              have hmuf : mu s1 ((t, image.mesh (tileScreenPosition clip cp t)) :: m)
                  < f := by omega
              rw [ih f (Nat.lt_succ_self f) _ _ _ hmuf]
              rcases h1 : drawTilesAux clip cp f t.north s1
                  ((t, image.mesh (tileScreenPosition clip cp t)) :: m)
                with e | ⟨s2, m2⟩
              · rfl
              · simp only
                obtain ⟨hp1, hk1⟩ := drawTilesAux_mono clip cp f _ _ _ _ _ h1
                have hmu2 : mu s2 m2 < f := by
                  have := mu_mono s2 s1 m2
                    ((t, image.mesh (tileScreenPosition clip cp t)) :: m) hp1 hk1
                  omega
                rw [ih f (Nat.lt_succ_self f) _ _ _ hmu2]
                rcases h2 : drawTilesAux clip cp f t.east s2 m2 with e | ⟨s3, m3⟩
                · rfl
                · simp only
                  obtain ⟨hp2, hk2⟩ := drawTilesAux_mono clip cp f _ _ _ _ _ h2
                  have hmu3 : mu s3 m3 < f := by
                    have := mu_mono s3 s2 m3 m2 hp2 hk2
                    omega
                  rw [ih f (Nat.lt_succ_self f) _ _ _ hmu3]
                  rcases h3 : drawTilesAux clip cp f t.south s3 m3 with e | ⟨s4, m4⟩
                  · rfl
                  · simp only
                    obtain ⟨hp3, hk3⟩ := drawTilesAux_mono clip cp f _ _ _ _ _ h3
                    have hmu4 : mu s4 m4 < f := by
                      have := mu_mono s4 s3 m4 m3 hp3 hk3
                      omega
                    rw [ih f (Nat.lt_succ_self f) _ _ _ hmu4]
            · rfl
          · rw [if_neg hint, if_neg hint]

/-! ### Reachability through good tiles -/

lemma goodTile_congr (clip : Rect) (cp : ℚ × ℚ) (s' s : TilesState)
    (h : ∀ u, readyLookup s' u = readyLookup s u) :
    ∀ u, goodTile clip cp s' u = goodTile clip cp s u := by
  intro u
  unfold goodTile
  rw [h u]

lemma reachVia_gd (gd : TileId → Bool) (a b : TileId) (h : ReachVia gd a b) :
    gd a = true := by
  induction h with
  | base ht => exact ht
  | step u n h1 hmem hgd ih => exact ih

lemma reachVia_congr (gd gd' : TileId → Bool) (hg : ∀ u, gd u = gd' u)
    (a b : TileId) (h : ReachVia gd a b) : ReachVia gd' a b := by
  induction h with
  | base ht => exact ReachVia.base a ((hg a).symm.trans ht)
  | step u n h1 hmem hgd ih =>
      exact ReachVia.step a u n ih hmem ((hg n).symm.trans hgd)

lemma reachVia_trans (gd : TileId → Bool) (a b c : TileId)
    (h1 : ReachVia gd a b) (h2 : ReachVia gd b c) : ReachVia gd a c := by
  revert h1
  induction h2 with
  | base ht => exact fun h1 => h1
  | step u n h hmem hgd ih => exact fun h1 => ReachVia.step a u n (ih h1) hmem hgd

lemma at'_ready_value (s : TilesState) (t : TileId)
    (halive : s.workerAlive = true) (hq : s.tileQueue = []) :
    Tiles.at' s t = .ok (readyLookup s t, (cacheStep s t).2) := by
  rw [at'_queueEmpty s t halive hq, ← cacheStep_fst s t]

/-- Full characterization of one `draw_tiles` call when the worker is alive
and no completed download is buffered (so the set of ready tiles is stable
during the traversal): the call succeeds, preserves the ready tiles, only
grows the accumulator, visits the start tile when it is good, closes the
new entries under good neighbors, only adds tiles good-reachable from the
start, and keeps the key list duplicate-free. -/
lemma drawTilesAux_flood (clip : Rect) (cp : ℚ × ℚ) :
    ∀ (fuel : ℕ) (t : TileId) (s : TilesState) (m : Meshes),
      s.workerAlive = true → s.tileQueue = [] → mu s m < fuel →
      ∃ (s' : TilesState) (m' : Meshes),
        drawTilesAux clip cp fuel t s m = .ok (s', m') ∧
        s'.workerAlive = true ∧ s'.tileQueue = [] ∧
        (∀ u, readyLookup s' u = readyLookup s u) ∧
        pool s' ⊆ pool s ∧
        meshKeys m ⊆ meshKeys m' ∧
        (goodTile clip cp s t = true → t ∈ meshKeys m') ∧
        (∀ u, u ∈ meshKeys m' → u ∉ meshKeys m →
          goodTile clip cp s u = true ∧
          (∀ n, n ∈ neighborsList u → goodTile clip cp s n = true →
            n ∈ meshKeys m')) ∧
        (∀ u, u ∈ meshKeys m' → u ∉ meshKeys m →
          ReachVia (goodTile clip cp s) t u) ∧
        ((m.map Prod.fst).Nodup → (m'.map Prod.fst).Nodup) := by
  intro fuel
  induction fuel using Nat.strong_induction_on with
  | _ fuel ih =>
      intro t s m halive hq hmu
      rcases fuel with _ | f
      · omega
      obtain ⟨htq1, hal1, hpool1, hrl1⟩ := cacheStep_state s t
      have hat := at'_ready_value s t halive hq
      have halive1 : (cacheStep s t).2.workerAlive = true := by rw [hal1]; exact halive
      have hq1 : (cacheStep s t).2.tileQueue = [] := by rw [htq1]; exact hq
      rcases hrv : readyLookup s t with _ | image
      · rw [hrv] at hat
        refine ⟨(cacheStep s t).2, m, ?_, halive1, hq1, hrl1, hpool1, subset_refl _,
          ?_, ?_, ?_, fun hnd => hnd⟩
        · rw [drawTilesAux, hat]
        · intro hgt
          unfold goodTile at hgt
          rw [hrv] at hgt
          simp at hgt
        · intro u hu hnotu
          exact absurd hu hnotu
        · intro u hu hnotu
          exact absurd hu hnotu
      · rw [hrv] at hat
        by_cases hint : clip.intersects (image.rect (tileScreenPosition clip cp t)) = true
        · rcases hmf : meshesFind m t with _ | mesh
          · have hready : t ∈ readyIds (cacheStep s t).2.cache :=
              at'_some_ready s t image _ hat
            have hnew : t ∉ meshKeys m := meshesFind_none_not_mem m t hmf
            have hgoodt : goodTile clip cp s t = true := by
              unfold goodTile
              rw [hrv]
              exact hint
            have hgood1 : ∀ u, goodTile clip cp (cacheStep s t).2 u = goodTile clip cp s u :=
              goodTile_congr clip cp _ s hrl1
            have hmu1 : mu (cacheStep s t).2
                ((t, image.mesh (tileScreenPosition clip cp t)) :: m) < mu s m :=
              mu_insert_lt _ s m t _ hpool1 hready hnew
            obtain ⟨s2, m2, heq1, hal2, hq2, hrl2, hpool2, hkeys2, hroot2, hclos2,
              hsound2, hnd2⟩ :=
              ih f (Nat.lt_succ_self f) t.north (cacheStep s t).2
                ((t, image.mesh (tileScreenPosition clip cp t)) :: m) halive1 hq1 (by omega)
            have hrl2s : ∀ u, readyLookup s2 u = readyLookup s u :=
              fun u => (hrl2 u).trans (hrl1 u)
            have hgood2 : ∀ u, goodTile clip cp s2 u = goodTile clip cp s u :=
              goodTile_congr clip cp s2 s hrl2s
            have hmu2 : mu s2 m2 < f := by
              have := mu_mono s2 _ m2 _ hpool2 hkeys2
              omega
            obtain ⟨s3, m3, heq2, hal3, hq3, hrl3, hpool3, hkeys3, hroot3, hclos3,
              hsound3, hnd3⟩ :=
              ih f (Nat.lt_succ_self f) t.east s2 m2 hal2 hq2 hmu2
            have hrl3s : ∀ u, readyLookup s3 u = readyLookup s u :=
              fun u => (hrl3 u).trans (hrl2s u)
            have hgood3 : ∀ u, goodTile clip cp s3 u = goodTile clip cp s u :=
              goodTile_congr clip cp s3 s hrl3s
            have hmu3 : mu s3 m3 < f := by
              have := mu_mono s3 s2 m3 m2 hpool3 hkeys3
              omega
            obtain ⟨s4, m4, heq3, hal4, hq4, hrl4, hpool4, hkeys4, hroot4, hclos4,
              hsound4, hnd4⟩ :=
              ih f (Nat.lt_succ_self f) t.south s3 m3 hal3 hq3 hmu3
            have hrl4s : ∀ u, readyLookup s4 u = readyLookup s u :=
              fun u => (hrl4 u).trans (hrl3s u)
            have hgood4 : ∀ u, goodTile clip cp s4 u = goodTile clip cp s u :=
              goodTile_congr clip cp s4 s hrl4s
            have hmu4 : mu s4 m4 < f := by
              have := mu_mono s4 s3 m4 m3 hpool4 hkeys4
              omega
            obtain ⟨s5, m5, heq4, hal5, hq5, hrl5, hpool5, hkeys5, hroot5, hclos5,
              hsound5, hnd5⟩ :=
              ih f (Nat.lt_succ_self f) t.west s4 m4 hal4 hq4 hmu4
            have hrl5s : ∀ u, readyLookup s5 u = readyLookup s u :=
              fun u => (hrl5 u).trans (hrl4s u)
            have hkm1 : meshKeys m ⊆
                meshKeys ((t, image.mesh (tileScreenPosition clip cp t)) :: m) := by
              rw [meshKeys_cons]
              exact Finset.subset_insert _ _
            have htm1 : t ∈ meshKeys ((t, image.mesh (tileScreenPosition clip cp t)) :: m) := by
              rw [meshKeys_cons]
              exact Finset.mem_insert_self _ _
            have hk25 : meshKeys m2 ⊆ meshKeys m5 := hkeys3.trans (hkeys4.trans hkeys5)
            have hk35 : meshKeys m3 ⊆ meshKeys m5 := hkeys4.trans hkeys5
            have hkm5 : meshKeys m ⊆ meshKeys m5 := hkm1.trans (hkeys2.trans hk25)
            refine ⟨s5, m5, ?_, hal5, hq5, hrl5s,
              hpool5.trans (hpool4.trans (hpool3.trans (hpool2.trans hpool1))), hkm5,
              fun _ => (hkeys2.trans hk25) htm1, ?_, ?_, ?_⟩
            · rw [drawTilesAux, hat]
              dsimp only
              rw [if_pos hint, hmf]
              dsimp only
              rw [heq1]
              dsimp only
              rw [heq2]
              dsimp only
              rw [heq3]
              dsimp only
              exact heq4
            · intro u hu hnotu
              by_cases hu2 : u ∈ meshKeys m2
              · by_cases hu1 : u ∈ meshKeys
                    ((t, image.mesh (tileScreenPosition clip cp t)) :: m)
                · have hut : u = t := by
                    rw [meshKeys_cons] at hu1
                    rcases Finset.mem_insert.mp hu1 with h | h
                    · exact h
                    · exact absurd h hnotu
                  subst hut
                  refine ⟨hgoodt, fun n hn hgn => ?_⟩
                  simp only [neighborsList, List.mem_cons, List.not_mem_nil, or_false] at hn
                  rcases hn with h | h | h | h
                  · subst h
                    exact hk25 (hroot2 ((hgood1 _).trans hgn))
                  · subst h
                    exact hk35 (hroot3 ((hgood2 _).trans hgn))
                  · subst h
                    exact hkeys5 (hroot4 ((hgood3 _).trans hgn))
                  · subst h
                    exact hroot5 ((hgood4 _).trans hgn)
                · obtain ⟨hg, hns⟩ := hclos2 u hu2 hu1
                  refine ⟨(hgood1 u).symm.trans hg, fun n hn hgn => ?_⟩
                  exact hk25 (hns n hn ((hgood1 n).trans hgn))
              · by_cases hu3 : u ∈ meshKeys m3
                · obtain ⟨hg, hns⟩ := hclos3 u hu3 hu2
                  refine ⟨(hgood2 u).symm.trans hg, fun n hn hgn => ?_⟩
                  exact hk35 (hns n hn ((hgood2 n).trans hgn))
                · by_cases hu4 : u ∈ meshKeys m4
                  · obtain ⟨hg, hns⟩ := hclos4 u hu4 hu3
                    refine ⟨(hgood3 u).symm.trans hg, fun n hn hgn => ?_⟩
                    exact hkeys5 (hns n hn ((hgood3 n).trans hgn))
                  · obtain ⟨hg, hns⟩ := hclos5 u hu hu4
                    refine ⟨(hgood4 u).symm.trans hg, fun n hn hgn => ?_⟩
                    exact hns n hn ((hgood4 n).trans hgn)
            · intro u hu hnotu
              have hstep : ∀ n, n ∈ neighborsList t → goodTile clip cp s n = true →
                  ReachVia (goodTile clip cp s) t n := fun n hn hgn =>
                ReachVia.step t t n (ReachVia.base t hgoodt) hn hgn
              by_cases hu2 : u ∈ meshKeys m2
              · by_cases hu1 : u ∈ meshKeys
                    ((t, image.mesh (tileScreenPosition clip cp t)) :: m)
                · have hut : u = t := by
                    rw [meshKeys_cons] at hu1
                    rcases Finset.mem_insert.mp hu1 with h | h
                    · exact h
                    · exact absurd h hnotu
                  subst hut
                  exact ReachVia.base u hgoodt
                · have h1 := hsound2 u hu2 hu1
                  have h2 : ReachVia (goodTile clip cp s) t.north u :=
                    reachVia_congr _ _ hgood1 _ _ h1
                  have hgn : goodTile clip cp s t.north = true := reachVia_gd _ _ _ h2
                  exact reachVia_trans _ _ _ _
                    (hstep t.north (by simp [neighborsList]) hgn) h2
              · by_cases hu3 : u ∈ meshKeys m3
                · have h1 := hsound3 u hu3 hu2
                  have h2 : ReachVia (goodTile clip cp s) t.east u :=
                    reachVia_congr _ _ hgood2 _ _ h1
                  have hgn : goodTile clip cp s t.east = true := reachVia_gd _ _ _ h2
                  exact reachVia_trans _ _ _ _
                    (hstep t.east (by simp [neighborsList]) hgn) h2
                · by_cases hu4 : u ∈ meshKeys m4
                  · have h1 := hsound4 u hu4 hu3
                    have h2 : ReachVia (goodTile clip cp s) t.south u :=
                      reachVia_congr _ _ hgood3 _ _ h1
                    have hgn : goodTile clip cp s t.south = true := reachVia_gd _ _ _ h2
                    exact reachVia_trans _ _ _ _
                      (hstep t.south (by simp [neighborsList]) hgn) h2
                  · have h1 := hsound5 u hu hu4
                    have h2 : ReachVia (goodTile clip cp s) t.west u :=
                      reachVia_congr _ _ hgood4 _ _ h1
                    have hgn : goodTile clip cp s t.west = true := reachVia_gd _ _ _ h2
                    exact reachVia_trans _ _ _ _
                      (hstep t.west (by simp [neighborsList]) hgn) h2
            · intro hnd
              have hnd1 : ((((t, image.mesh (tileScreenPosition clip cp t)) :: m)).map
                  Prod.fst).Nodup := by
                simp only [List.map_cons]
                exact List.nodup_cons.mpr
                  ⟨fun hmem => hnew (List.mem_toFinset.mpr hmem), hnd⟩
              exact hnd5 (hnd4 (hnd3 (hnd2 hnd1)))
          · refine ⟨(cacheStep s t).2, m, ?_, halive1, hq1, hrl1, hpool1, subset_refl _,
              fun _ => meshesFind_some_mem m t mesh hmf, ?_, ?_, fun hnd => hnd⟩
            · rw [drawTilesAux, hat]
              dsimp only
              rw [if_pos hint, hmf]
            · intro u hu hnotu
              exact absurd hu hnotu
            · intro u hu hnotu
              exact absurd hu hnotu
        · refine ⟨(cacheStep s t).2, m, ?_, halive1, hq1, hrl1, hpool1, subset_refl _,
            ?_, ?_, ?_, fun hnd => hnd⟩
          · rw [drawTilesAux, hat]
            dsimp only
            rw [if_neg hint]
          · intro hgt
            unfold goodTile at hgt
            rw [hrv] at hgt
            exact absurd hgt hint
          · intro u hu hnotu
            exact absurd hu hnotu
          · intro u hu hnotu
            exact absurd hu hnotu

/-! ### Claim C6: the viewport tile discovery terminates -/

/-- C6: the recursive viewport tile discovery terminates for every clip
rectangle, center and cache state: its result is independent of the fuel
bound once the fuel exceeds the number of tiles that can still be newly
visited (`mu`, finite because the cache and the result channel are finite
and recursion stops at uncached or non-intersecting tiles, each tile being
expanded at most once thanks to the visited map). -/
theorem draw_tiles_terminates (clip : Rect) (cp : ℚ × ℚ) (t : TileId)
    (s : TilesState) (m : Meshes) (fuel : ℕ) (h : mu s m + 1 ≤ fuel) :
    drawTilesAux clip cp fuel t s m = drawTilesAux clip cp (mu s m + 1) t s m := by
  obtain ⟨k, hk⟩ : ∃ k, fuel = mu s m + 1 + k := ⟨fuel - (mu s m + 1), by omega⟩
  subst hk
  clear h
  induction k with
  | zero => rfl
  | succ n ihn =>
      have hstep := drawTilesAux_stab clip cp (mu s m + 1 + n) t s m (by omega)
      rw [show mu s m + 1 + (n + 1) = mu s m + 1 + n + 1 from rfl, hstep]
      exact ihn

/-- Witness for `draw_tiles_terminates` at a concrete fresh state. -/
theorem draw_tiles_terminates_witness :
    mu (tilesInit 20) [] + 1 ≤ 5 ∧
    drawTilesAux ⟨0, 0, 100, 100⟩ (0, 0) 5 ⟨0, 0, 0⟩ (tilesInit 20) [] =
      drawTilesAux ⟨0, 0, 100, 100⟩ (0, 0) (mu (tilesInit 20) [] + 1) ⟨0, 0, 0⟩
        (tilesInit 20) [] :=
  ⟨by decide,
   draw_tiles_terminates ⟨0, 0, 100, 100⟩ (0, 0) ⟨0, 0, 0⟩ (tilesInit 20) [] 5
     (by decide)⟩

/-! ### Claim C7: the enumerator's output is exactly the good-reachable set -/

/-- C7: when the worker is alive and no completed download is buffered on
the result channel (so the set of ready tiles is well-defined during the
call), `draw_tiles` started with an empty accumulator produces a finite,
duplicate-free mesh set — at most one mesh per tile id — whose keys are
exactly the tiles reachable from the center tile through 4-connected
neighbors whose screen rectangles intersect the clip rectangle (a tile's
screen rectangle being the rectangle of its ready cached image; a tile
without a ready image has no dimensions, hence no rectangle, and prunes the
fill, per spec §4.4). -/
theorem draw_tiles_flood_exact (clip : Rect) (cp : ℚ × ℚ) (c : TileId)
    (s : TilesState) (fuel : ℕ)
    (halive : s.workerAlive = true) (hq : s.tileQueue = [])
    (hfuel : mu s [] < fuel) :
    ∃ (s' : TilesState) (m' : Meshes),
      drawTilesAux clip cp fuel c s [] = .ok (s', m') ∧
      (m'.map Prod.fst).Nodup ∧
      (∀ u, u ∈ m'.map Prod.fst ↔ ReachVia (goodTile clip cp s) c u) := by
  obtain ⟨s', m', heq, _, _, _, _, _, hroot, hclos, hsound, hnd⟩ :=
    drawTilesAux_flood clip cp fuel c s [] halive hq hfuel
  refine ⟨s', m', heq, hnd (by simp), fun u => ⟨?_, ?_⟩⟩
  · intro hu
    exact hsound u (List.mem_toFinset.mpr hu) (by simp [meshKeys])
  · intro hreach
    have hmem : ∀ v, ReachVia (goodTile clip cp s) c v → v ∈ meshKeys m' := by
      intro v hv
      induction hv with
      | base ht => exact hroot ht
      | step u n h1 hmem hgd ihv =>
          obtain ⟨_, hns⟩ := hclos u ihv (by simp [meshKeys])
          exact hns n hmem hgd
    exact List.mem_toFinset.mp (hmem u hreach)

/-- Witness for `draw_tiles_flood_exact` at a concrete fresh state. -/
theorem draw_tiles_flood_exact_witness :
    TilesState.workerAlive (tilesInit 20) = true ∧
    TilesState.tileQueue (tilesInit 20) = [] ∧
    mu (tilesInit 20) [] < 1 ∧
    (∃ (s' : TilesState) (m' : Meshes),
      drawTilesAux ⟨0, 0, 100, 100⟩ (0, 0) 1 ⟨0, 0, 0⟩ (tilesInit 20) [] =
        .ok (s', m') ∧
      (m'.map Prod.fst).Nodup ∧
      (∀ u, u ∈ m'.map Prod.fst ↔
        ReachVia (goodTile ⟨0, 0, 100, 100⟩ (0, 0) (tilesInit 20)) ⟨0, 0, 0⟩ u)) :=
  ⟨rfl, rfl, by decide,
   draw_tiles_flood_exact ⟨0, 0, 100, 100⟩ (0, 0) ⟨0, 0, 0⟩ (tilesInit 20) 1
     rfl rfl (by decide)⟩

/-! ### Helper lemmas about `screen_drag` -/

/-- A primary or non-primary drag step maps a detached mode to a detached
mode. -/
lemma screen_drag_exact_isExact (p : Position) (b : Bool) (d : ℝ × ℝ)
    (m : Position) (z : ℕ) :
    ∃ q, MapCenterMode.screen_drag (.Exact p) b d m z = .Exact q := by
  cases b with
  | false => exact ⟨p, rfl⟩
  | true => exact ⟨_, rfl⟩

/-- A fold of drag steps starting from a detached mode stays detached. -/
lemma dragSequence_exact_isExact (p : Position) (events : List DragEvent) :
    ∃ q, dragSequence (.Exact p) events = .Exact q := by
  induction events generalizing p with
  | nil => exact ⟨p, rfl⟩
  | cons e rest ih =>
      obtain ⟨q, hq⟩ := screen_drag_exact_isExact p e.draggedByPrimary e.dragDelta
        e.myPosition e.zoom
      simpa [dragSequence, hq] using ih q

lemma count_append_singleton_self (q : List TileId) (tid : TileId) :
    (q ++ [tid]).count tid = q.count tid + 1 := by
  simp [List.count_append]

lemma count_append_singleton_ne (q : List TileId) (tid u : TileId)
    (h : u ≠ tid) : (q ++ [tid]).count u = q.count u := by
  simp [List.count_append, List.count_singleton', beq_eq_false_iff_ne, Ne.symm h]

lemma invC1_atCall (σ : Sys) (tid : TileId) (r : Option Tile)
    (t' : TilesState) (h : Tiles.at' σ.tiles tid = .ok (r, t'))
    (hinv : InvC1 σ) :
    InvC1 { tiles := t', inflight := σ.inflight, enqueued := bumpEnqueued σ tid t' } := by
  obtain ⟨halive, hcap, hmono, hqcase⟩ := at'_ok_cases σ.tiles tid r t' h
  intro u
  obtain ⟨hle, hsome⟩ := hinv u
  rcases hqcase with hsame | ⟨happ, hnone, hpend⟩
  · constructor
    · simpa [outstanding, hsame] using hle
    · intro h1
      exact hmono u (hsome (by simpa [outstanding, hsame] using h1))
  · by_cases hu : u = tid
    · subst hu
      have hzero : outstanding σ u = 0 := by
        by_contra hne
        have h1 : 1 ≤ outstanding σ u := Nat.one_le_iff_ne_zero.mpr hne
        have := hsome h1
        rw [hnone] at this
        simp at this
      have hcount : σ.tiles.requestQueue.count u = 0 := by
        have := hzero
        unfold outstanding at this
        omega
      have hinfl : (if σ.inflight = some u then 1 else 0) = 0 := by
        have := hzero
        unfold outstanding at this
        omega
      constructor
      · simp only [outstanding, happ, count_append_singleton_self, hcount]
        omega
      · intro _
        simp [hpend]
    · constructor
      · simpa [outstanding, happ, count_append_singleton_ne _ _ _ hu] using hle
      · intro h1
        exact hmono u (hsome (by
          simpa [outstanding, happ, count_append_singleton_ne _ _ _ hu] using h1))

lemma invC1_preserved (σ σ' : Sys) (hstep : Step σ σ') (hinv : InvC1 σ) :
    InvC1 σ' := by
  cases hstep with
  | atCall tid r t' h => exact invC1_atCall σ tid r t' h hinv
  | workerTake tid rest hq hin =>
      intro u
      obtain ⟨hle, hsome⟩ := hinv u
      have hcnt : σ.tiles.requestQueue.count u =
          rest.count u + (if tid = u then 1 else 0) := by
        rw [hq]
        simp [List.count_cons, beq_iff_eq]
      have hout : outstanding { σ with
          tiles := { σ.tiles with requestQueue := rest },
          inflight := some tid } u = outstanding σ u := by
        show rest.count u + (if some tid = some u then 1 else 0) =
          σ.tiles.requestQueue.count u + (if σ.inflight = some u then 1 else 0)
        rw [hcnt, hin, if_neg (by simp : ¬ (none : Option TileId) = some u)]
        by_cases htu : tid = u
        · rw [if_pos (by rw [htu] : some tid = some u), if_pos htu]
        · rw [if_neg (fun hh => htu (Option.some.inj hh)), if_neg htu]
      rw [hout]
      exact ⟨hle, hsome⟩
  | workerSuccess tid tile hin hroom =>
      intro u
      obtain ⟨hle, hsome⟩ := hinv u
      have hout : outstanding { σ with
          tiles := { σ.tiles with
                     tileQueue := σ.tiles.tileQueue ++ [(tid, tile)] },
          inflight := none } u ≤ outstanding σ u := by
        show σ.tiles.requestQueue.count u + (if (none : Option TileId) = some u then 1 else 0) ≤
          σ.tiles.requestQueue.count u + (if σ.inflight = some u then 1 else 0)
        rw [if_neg (by simp : ¬ (none : Option TileId) = some u)]
        by_cases hiu : σ.inflight = some u <;> simp [hiu]
      exact ⟨le_trans hout hle, fun h1 => hsome (le_trans h1 hout)⟩
  | workerFail tid hin =>
      intro u
      obtain ⟨hle, hsome⟩ := hinv u
      have hout : outstanding { σ with inflight := none } u ≤ outstanding σ u := by
        show σ.tiles.requestQueue.count u + (if (none : Option TileId) = some u then 1 else 0) ≤
          σ.tiles.requestQueue.count u + (if σ.inflight = some u then 1 else 0)
        rw [if_neg (by simp : ¬ (none : Option TileId) = some u)]
        by_cases hiu : σ.inflight = some u <;> simp [hiu]
      exact ⟨le_trans hout hle, fun h1 => hsome (le_trans h1 hout)⟩

lemma invC1_init (cap : ℕ) : InvC1 (sysInit cap) := by
  intro tid
  simp [outstanding, sysInit, tilesInit, InvC1, cacheFind]

lemma reach_invC1 (cap : ℕ) (σ : Sys) (h : Reach cap σ) : InvC1 σ := by
  induction h with
  | refl => exact invC1_init cap
  | tail _ hstep ih => exact invC1_preserved _ _ hstep ih

lemma invC3_atCall (σ : Sys) (tid : TileId) (r : Option Tile)
    (t' : TilesState) (h : Tiles.at' σ.tiles tid = .ok (r, t'))
    (hinv : InvC3 σ) :
    InvC3 { tiles := t', inflight := σ.inflight, enqueued := bumpEnqueued σ tid t' } := by
  obtain ⟨halive, hq, hclauses⟩ := hinv
  rw [at'_queueEmpty σ.tiles tid halive hq] at h
  have hCS : cacheStep σ.tiles tid = (r, t') := by
    injection h
  unfold cacheStep at hCS
  rcases hfind : cacheFind σ.tiles.cache tid with _ | v <;> rw [hfind] at hCS
  · by_cases hroom : σ.tiles.requestQueue.length < σ.tiles.capacity
    · rw [if_pos hroom] at hCS
      obtain ⟨hr, ht'⟩ := Prod.mk.injEq .. ▸ hCS
      have hc : t'.cache = cacheInsert σ.tiles.cache tid none := by rw [← ht']
      have hrq : t'.requestQueue = σ.tiles.requestQueue ++ [tid] := by rw [← ht']
      have htq : t'.tileQueue = σ.tiles.tileQueue := by rw [← ht']
      have hwa : t'.workerAlive = σ.tiles.workerAlive := by rw [← ht']
      have hlen : t'.requestQueue.length = σ.tiles.requestQueue.length + 1 := by
        rw [hrq]; simp
      refine ⟨?_, ?_, fun u => ?_⟩
      · show t'.workerAlive = true
        rw [hwa]; exact halive
      · show t'.tileQueue = []
        rw [htq]; exact hq
      obtain ⟨hpend, hle, hiff⟩ := hclauses u
      by_cases hu : u = tid
      · subst hu
        have hzero : σ.enqueued u = 0 := by
          have h1 : ¬ σ.enqueued u = 1 := fun h1 => by
            have := hiff.mpr h1
            rw [hfind] at this
            simp at this
          omega
        have hbump : bumpEnqueued σ u t' u = 1 := by
          unfold bumpEnqueued
          rw [if_pos ⟨rfl, hlen⟩, hzero]
        refine ⟨?_, ?_, ?_⟩
        · show cacheFind t'.cache u = none ∨ cacheFind t'.cache u = some none
          right
          rw [hc]
          exact cacheFind_insert_self _ _ _
        · show bumpEnqueued σ u t' u ≤ 1
          rw [hbump]
        · show (cacheFind t'.cache u).isSome = true ↔ bumpEnqueued σ u t' u = 1
          rw [hbump, hc, cacheFind_insert_self]
          simp
      · have hbump : bumpEnqueued σ tid t' u = σ.enqueued u := by
          unfold bumpEnqueued
          rw [if_neg (fun hcond => hu hcond.1)]
          omega
        have hfu : cacheFind t'.cache u = cacheFind σ.tiles.cache u := by
          rw [hc]
          exact cacheFind_insert_ne _ _ _ _ hu
        refine ⟨?_, ?_, ?_⟩
        · show cacheFind t'.cache u = none ∨ cacheFind t'.cache u = some none
          rw [hfu]; exact hpend
        · show bumpEnqueued σ tid t' u ≤ 1
          rw [hbump]; exact hle
        · show (cacheFind t'.cache u).isSome = true ↔ bumpEnqueued σ tid t' u = 1
          rw [hbump, hfu]; exact hiff
    · rw [if_neg hroom] at hCS
      obtain ⟨hr, ht'⟩ := Prod.mk.injEq .. ▸ hCS
      subst ht'
      refine ⟨halive, hq, fun u => ?_⟩
      obtain ⟨hpend, hle, hiff⟩ := hclauses u
      have hbump : bumpEnqueued σ tid σ.tiles u = σ.enqueued u := by
        unfold bumpEnqueued
        rw [if_neg (fun hcond => by omega)]
        omega
      refine ⟨hpend, ?_, ?_⟩
      · show bumpEnqueued σ tid σ.tiles u ≤ 1
        rw [hbump]; exact hle
      · show (cacheFind σ.tiles.cache u).isSome = true ↔ bumpEnqueued σ tid σ.tiles u = 1
        rw [hbump]; exact hiff
  · obtain ⟨hr, ht'⟩ := Prod.mk.injEq .. ▸ hCS
    subst ht'
    refine ⟨halive, hq, fun u => ?_⟩
    obtain ⟨hpend, hle, hiff⟩ := hclauses u
    have hbump : bumpEnqueued σ tid σ.tiles u = σ.enqueued u := by
      unfold bumpEnqueued
      rw [if_neg (fun hcond => by omega)]
      omega
    refine ⟨hpend, ?_, ?_⟩
    · show bumpEnqueued σ tid σ.tiles u ≤ 1
      rw [hbump]; exact hle
    · show (cacheFind σ.tiles.cache u).isSome = true ↔ bumpEnqueued σ tid σ.tiles u = 1
      rw [hbump]; exact hiff

lemma invC3_preserved (σ σ' : Sys) (hstep : FailStep σ σ') (hinv : InvC3 σ) :
    InvC3 σ' := by
  cases hstep with
  | atCall tid r t' h => exact invC3_atCall σ tid r t' h hinv
  | workerTake tid rest hq hin =>
      obtain ⟨halive, hqe, hclauses⟩ := hinv
      exact ⟨halive, hqe, hclauses⟩
  | workerFail tid hin =>
      obtain ⟨halive, hqe, hclauses⟩ := hinv
      exact ⟨halive, hqe, hclauses⟩

lemma invC3_init (cap : ℕ) : InvC3 (sysInit cap) := by
  refine ⟨rfl, rfl, fun tid => ?_⟩
  simp [sysInit, tilesInit, cacheFind]

lemma failReach_invC3 (cap : ℕ) (σ : Sys) (h : FailReach cap σ) : InvC3 σ := by
  induction h with
  | refl => exact invC3_init cap
  | tail _ hstep ih => exact invC3_preserved _ _ hstep ih

/-! ### Claim C1: at most one outstanding request per tile id -/

/-- C1: once an entry for an id exists in the cache map (pending or ready),
a lookup never sends another request (the request queue is left untouched),
and along every system trace from a fresh `Tiles::new` each tile id has at
most one outstanding request (on the request channel or in flight) at any
time. -/
theorem at_most_one_outstanding_request :
    (∀ (s : TilesState) (tid : TileId) (r : Option Tile) (s' : TilesState),
      (cacheFind s.cache tid).isSome = true →
      Tiles.at' s tid = .ok (r, s') → s'.requestQueue = s.requestQueue) ∧
    (∀ (cap : ℕ) (σ : Sys), Reach cap σ → ∀ tid : TileId, outstanding σ tid ≤ 1) := by
  constructor
  · intro s tid r s' hsome h
    obtain ⟨_, _, _, hqc⟩ := at'_ok_cases s tid r s' h
    rcases hqc with h1 | ⟨_, hnone, _⟩
    · exact h1
    · rw [hnone] at hsome
      simp at hsome
  · intro cap σ hreach tid
    exact (reach_invC1 cap σ hreach tid).1

/-- Witness for `at_most_one_outstanding_request` at concrete inputs: a
state whose cache already holds a pending entry for the queried id, and the
initial system. -/
theorem at_most_one_outstanding_request_witness :
    (cacheFind [((⟨0, 0, 0⟩ : TileId), (none : Option Tile))] ⟨0, 0, 0⟩).isSome = true ∧
    Tiles.at'
        { cache := [(⟨0, 0, 0⟩, none)], requestQueue := [], tileQueue := [],
          capacity := 20, workerAlive := true } ⟨0, 0, 0⟩ =
      .ok (none,
        { cache := [(⟨0, 0, 0⟩, none)], requestQueue := [], tileQueue := [],
          capacity := 20, workerAlive := true }) ∧
    TilesState.requestQueue
        { cache := [(⟨0, 0, 0⟩, none)], requestQueue := [], tileQueue := [],
          capacity := 20, workerAlive := true } =
      TilesState.requestQueue
        { cache := [(⟨0, 0, 0⟩, none)], requestQueue := [], tileQueue := [],
          capacity := 20, workerAlive := true } ∧
    Reach 20 (sysInit 20) ∧ outstanding (sysInit 20) ⟨0, 0, 0⟩ ≤ 1 :=
  ⟨rfl, rfl,
   at_most_one_outstanding_request.1
     { cache := [(⟨0, 0, 0⟩, none)], requestQueue := [], tileQueue := [],
       capacity := 20, workerAlive := true } ⟨0, 0, 0⟩ none
     { cache := [(⟨0, 0, 0⟩, none)], requestQueue := [], tileQueue := [],
       capacity := 20, workerAlive := true } rfl rfl,
   Relation.ReflTransGen.refl,
   at_most_one_outstanding_request.2 20 (sysInit 20) Relation.ReflTransGen.refl ⟨0, 0, 0⟩⟩

/-! ### Claim C3: an always-failing source keeps lookups empty forever -/

/-- C3: with an always-failing (non-2xx) tile source, in every reachable
system state every call to the cache lookup returns `none` for every tile
id, at most one request is ever placed on the request channel for each id,
and exactly one has been placed once the id's cache entry exists (entries
stay pending forever; failed tiles are never retried). -/
theorem failing_source_none_forever :
    ∀ (cap : ℕ) (σ : Sys), FailReach cap σ → ∀ tid : TileId,
      (∃ s' : TilesState, Tiles.at' σ.tiles tid = .ok (none, s')) ∧
      σ.enqueued tid ≤ 1 ∧
      ((cacheFind σ.tiles.cache tid).isSome = true ↔ σ.enqueued tid = 1) := by
  intro cap σ hreach tid
  obtain ⟨halive, hq, hclauses⟩ := failReach_invC3 cap σ hreach
  obtain ⟨hcache, hle, hiff⟩ := hclauses tid
  refine ⟨?_, hle, hiff⟩
  have hval : (cacheStep σ.tiles tid).1 = none := by
    rcases hcache with hn | hp
    · simp only [cacheStep, hn]
      split <;> rfl
    · simp [cacheStep, hp]
  refine ⟨(cacheStep σ.tiles tid).2, ?_⟩
  rw [at'_queueEmpty σ.tiles tid halive hq]
  have hsplit : cacheStep σ.tiles tid = (none, (cacheStep σ.tiles tid).2) := by
    rw [← hval]
  rw [hsplit]

/-- Witness for `failing_source_none_forever` at the initial system. -/
theorem failing_source_none_forever_witness :
    FailReach 20 (sysInit 20) ∧
    ((∃ s' : TilesState, Tiles.at' (sysInit 20).tiles ⟨0, 0, 0⟩ = .ok (none, s')) ∧
      (sysInit 20).enqueued ⟨0, 0, 0⟩ ≤ 1 ∧
      ((cacheFind (sysInit 20).tiles.cache ⟨0, 0, 0⟩).isSome = true ↔
        (sysInit 20).enqueued ⟨0, 0, 0⟩ = 1)) :=
  ⟨Relation.ReflTransGen.refl,
   failing_source_none_forever 20 (sysInit 20) Relation.ReflTransGen.refl ⟨0, 0, 0⟩⟩

/-! ### Claim C10: `position` on a detached mode ignores the live position -/

/-- C10: for every stored position `p` and live positions, `position` on
`Exact p` returns `p`, so the effective center in detached mode is
completely independent of the live position argument. -/
theorem exact_position_ignores_live (p m m1 m2 : Position) :
    (MapCenterMode.Exact p).position m = p ∧
    (MapCenterMode.Exact p).position m1 = (MapCenterMode.Exact p).position m2 :=
  ⟨rfl, rfl⟩

/-! ### Claim C8: detached mode is absorbing under drags -/

/-- C8: `screen_drag` maps an `Exact` state only to another `Exact` state,
and no sequence of drag operations starting from `Exact` ever returns the
mode to `MyPosition`: detached is an absorbing state of the drag step
relation. -/
theorem exact_absorbing_under_drag (p : Position) :
    (∀ (b : Bool) (d : ℝ × ℝ) (m : Position) (z : ℕ),
      ∃ q, MapCenterMode.screen_drag (.Exact p) b d m z = .Exact q) ∧
    (∀ events : List DragEvent,
      ∃ q, dragSequence (.Exact p) events = .Exact q) :=
  ⟨fun b d m z => screen_drag_exact_isExact p b d m z,
   fun events => dragSequence_exact_isExact p events⟩

/-! ### Claim C4: what a first primary drag does to a following mode -/

/-- C4 counterexample: a single primary drag of `(10, 10)` pixels at zoom 3
starting in `MyPosition` with live position `(0, 0)` does not produce the
inverse-projected offset position claimed; the code discards the first
drag's delta and detaches at the live position itself. -/
theorem screen_drag_first_offset_counterexample :
    MapCenterMode.screen_drag .MyPosition true (10, 10) ⟨0, 0⟩ 3 ≠
      MapCenterMode.Exact
        (screen_to_position (Position.project ⟨0, 0⟩ 3 - (10, 10)) 3) := by
  intro h
  rw [show MapCenterMode.screen_drag .MyPosition true (10, 10) ⟨0, 0⟩ 3 =
      MapCenterMode.Exact ⟨0, 0⟩ from rfl] at h
  injection h with h'
  have hlon := congrArg Position.lon h'
  simp only [screen_to_position, Position.project, Prod.fst_sub] at hlon
  norm_num at hlon

/-- C4 amended: starting in Follow mode, a primary drag (in particular one
of `(10, 10)` pixels at zoom 3 with live position `(0, 0)`) transitions the
mode to Detached anchored exactly at the live position, discarding that
first drag's delta; a second primary drag offsets the detached position by
project-subtract-unproject of its delta; the mode never reverts to Follow. -/
theorem screen_drag_detach_then_offset (p m : Position) (z : ℕ) (d : ℝ × ℝ) :
    MapCenterMode.screen_drag .MyPosition true (10, 10) ⟨0, 0⟩ 3 =
      MapCenterMode.Exact ⟨0, 0⟩ ∧
    MapCenterMode.screen_drag .MyPosition true d m z = MapCenterMode.Exact m ∧
    MapCenterMode.screen_drag (.Exact p) true d m z =
      MapCenterMode.Exact (screen_to_position (Position.project p z - d) z) ∧
    (∀ b : Bool, ∃ q, MapCenterMode.screen_drag (.Exact p) b d m z = .Exact q) :=
  ⟨rfl, rfl, rfl, fun b => screen_drag_exact_isExact p b d m z⟩

/-! ### Claim C2: failure handling in the download worker -/

/-- C2 counterexample: a network error on the HTTP GET is not dropped
silently; the worker hits the `.unwrap()` on the send future and panics. -/
theorem download_netErr_panics_counterexample :
    downloadStep (fun _ => none) ⟨0, 0, 0⟩ .netErr true = .error .sendUnwrap :=
  rfl

/-- C2 amended: only an HTTP non-2xx status is dropped silently (nothing
pushed, no retry, the loop continues); a network error on the GET panics
the worker at the send-future `.unwrap()`, and a 2xx body that fails to
decode panics inside `Tile::new`; only on a successful decode is the
`(tileId, tile)` pair pushed to the result queue. -/
theorem download_step_cases (decode : List ℕ → Option Tile) (req : TileId)
    (status : ℕ) (body : List ℕ) (alive : Bool) (tile : Tile) :
    (isSuccessStatus status = false →
      downloadStep decode req (.resp status body) alive =
        .ok { sent := none, continueLoop := true }) ∧
    (downloadStep decode req .netErr alive = .error .sendUnwrap) ∧
    (isSuccessStatus status = true → decode body = none →
      downloadStep decode req (.resp status body) alive = .error .decodeUnwrap) ∧
    (isSuccessStatus status = true → decode body = some tile →
      downloadStep decode req (.resp status body) true =
        .ok { sent := some (req, tile), continueLoop := true }) := by
  refine ⟨fun h => ?_, rfl, fun h1 h2 => ?_, fun h1 h2 => ?_⟩
  · simp [downloadStep, h]
  · simp [downloadStep, h1, Tile.new, h2]
  · simp [downloadStep, h1, Tile.new, h2]

/-- Witness for `download_step_cases` at concrete inputs. -/
theorem download_step_cases_witness :
    isSuccessStatus 404 = false ∧
    downloadStep (fun _ => none) ⟨1, 2, 3⟩ ((.resp 404 [1]) : FetchOutcome) true =
      .ok { sent := none, continueLoop := true } ∧
    isSuccessStatus 200 = true ∧
    downloadStep (fun _ => none) ⟨1, 2, 3⟩ ((.resp 200 [1]) : FetchOutcome) true =
      .error .decodeUnwrap ∧
    downloadStep (fun _ => some ⟨256, 256⟩) ⟨1, 2, 3⟩
        ((.resp 200 [1]) : FetchOutcome) true =
      .ok { sent := some (⟨1, 2, 3⟩, ⟨256, 256⟩), continueLoop := true } :=
  ⟨by decide,
   (download_step_cases (fun _ => none) ⟨1, 2, 3⟩ 404 [1] true ⟨256, 256⟩).1 (by decide),
   by decide,
   (download_step_cases (fun _ => none) ⟨1, 2, 3⟩ 200 [1] true ⟨256, 256⟩).2.2.1
     (by decide) rfl,
   (download_step_cases (fun _ => some ⟨256, 256⟩) ⟨1, 2, 3⟩ 200 [1] true
     ⟨256, 256⟩).2.2.2 (by decide) rfl⟩

/-! ### Claim C9: `Tiles::at` panics when the result channel is disconnected -/

/-- C9: if the download worker has terminated so that the result channel is
disconnected (worker gone and no buffered result), the next call to the
cache lookup reaches the `todo!()` branch instead of returning `None`. -/
theorem at_disconnected_panics (s : TilesState) (tid : TileId) :
    s.workerAlive = false → s.tileQueue = [] → Tiles.at' s tid = .error () := by
  intro ha hq
  simp [Tiles.at', tryRecvStep, hq, ha]

/-- Witness for `at_disconnected_panics` at a concrete dead-worker state. -/
theorem at_disconnected_panics_witness :
    (TilesState.workerAlive
        { cache := [], requestQueue := [], tileQueue := [],
          capacity := 20, workerAlive := false } = false) ∧
    (TilesState.tileQueue
        { cache := [], requestQueue := [], tileQueue := [],
          capacity := 20, workerAlive := false } = []) ∧
    Tiles.at'
        { cache := [], requestQueue := [], tileQueue := [],
          capacity := 20, workerAlive := false } ⟨0, 0, 0⟩ = .error () :=
  ⟨rfl, rfl,
   at_disconnected_panics
     { cache := [], requestQueue := [], tileQueue := [],
       capacity := 20, workerAlive := false } ⟨0, 0, 0⟩ rfl rfl⟩

/-! ### Claim C5: full request queue leaves the tile absent, no error -/

/-- C5: when the lookup is called on an absent tile id and the non-blocking
enqueue fails because the request queue is full, no cache entry is inserted
and the state is unchanged (so a later call retries the enqueue), and the
call still returns `none` with no error; when the queue has room the
request is enqueued and the id marked pending; with capacity 1, requesting
two distinct absent tiles before any completion enqueues exactly one
request and the second lookup returns `none`. -/
theorem at_full_queue_behavior :
    (∀ (s : TilesState) (tid : TileId),
      s.workerAlive = true → s.tileQueue = [] → cacheFind s.cache tid = none →
      s.capacity ≤ s.requestQueue.length → Tiles.at' s tid = .ok (none, s)) ∧
    (∀ (s : TilesState) (tid : TileId),
      s.workerAlive = true → s.tileQueue = [] → cacheFind s.cache tid = none →
      s.requestQueue.length < s.capacity →
      Tiles.at' s tid = .ok (none,
        { s with requestQueue := s.requestQueue ++ [tid]
                 cache := cacheInsert s.cache tid none })) ∧
    (Tiles.at' (tilesInit 1) ⟨0, 0, 0⟩ = .ok (none,
        { cache := [(⟨0, 0, 0⟩, none)], requestQueue := [⟨0, 0, 0⟩],
          tileQueue := [], capacity := 1, workerAlive := true }) ∧
     Tiles.at'
        { cache := [(⟨0, 0, 0⟩, none)], requestQueue := [⟨0, 0, 0⟩],
          tileQueue := [], capacity := 1, workerAlive := true } ⟨1, 0, 0⟩ =
      .ok (none,
        { cache := [(⟨0, 0, 0⟩, none)], requestQueue := [⟨0, 0, 0⟩],
          tileQueue := [], capacity := 1, workerAlive := true })) := by
  refine ⟨fun s tid ha hq hfind hfull => ?_, fun s tid ha hq hfind hroom => ?_,
    rfl, rfl⟩
  · simp [Tiles.at', tryRecvStep, hq, ha, cacheStep, hfind, Nat.not_lt.mpr hfull]
  · simp [Tiles.at', tryRecvStep, hq, ha, cacheStep, hfind, hroom]

/-- Witness for `at_full_queue_behavior` at concrete states. -/
theorem at_full_queue_behavior_witness :
    Tiles.at'
        { cache := [], requestQueue := [⟨9, 9, 0⟩], tileQueue := [],
          capacity := 1, workerAlive := true } ⟨0, 0, 0⟩ =
      .ok (none,
        { cache := [], requestQueue := [⟨9, 9, 0⟩], tileQueue := [],
          capacity := 1, workerAlive := true }) ∧
    Tiles.at' (tilesInit 1) ⟨0, 0, 0⟩ = .ok (none,
      { requestQueue := List.nil ++ [⟨0, 0, 0⟩]
        cache := cacheInsert [] ⟨0, 0, 0⟩ none
        tileQueue := [], capacity := 1, workerAlive := true }) :=
  ⟨at_full_queue_behavior.1
      { cache := [], requestQueue := [⟨9, 9, 0⟩], tileQueue := [],
        capacity := 1, workerAlive := true } ⟨0, 0, 0⟩ rfl rfl rfl (by decide),
   at_full_queue_behavior.2.1 (tilesInit 1) ⟨0, 0, 0⟩ rfl rfl rfl (by decide)⟩

end Walkers
